import Mathlib

set_option autoImplicit false

/-!
Shallow embedding of the spectral-model composition and evaluation engine of
the `jaxspec` repository, and proofs about it.

Embedded source:
* `src/jaxspec/model/abc.py` — `SpectralModel` (`flux`,
  `find_multiplicative_components`, `__str__`, `from_component`, `compose`,
  `build_namespace`);
* `src/jaxspec/fit.py` — the clamp in `ForwardModel.__call__`;
* component shapes (continuum / fine-structure signatures) from
  `src/jaxspec/model/additive.py`.

Representation choices:
* Machine floats become exact rationals (`ℚ`); `jnp.log` is an opaque
  parameter `log : ℚ → ℚ` of the evaluator (every theorem below is proved for
  an arbitrary `log`, hence in particular for the real logarithm the code
  computes with).
* A graph built by `from_component` / `compose` with fresh `uuid4` node ids is
  a binary tree whose leaves are component nodes and whose inner nodes are the
  binary operation nodes; the evaluator is embedded on that tree (`SModel`).
  The node-id level graph operations (`networkx` `compose` / `relabel_nodes`),
  which are what decide the claims about node sharing and the namespace
  resolver, are embedded separately below (`RGraph`).
* `jnp` arrays indexed by bins are total functions `ℕ → ℚ` together with the
  explicit bin count `n`; entries at indices `≥ n` are irrelevant junk.
* A component's runtime haiku module is represented by the data the evaluator
  reads from it: its elementwise continuum function and its per-bin
  `emission_lines` output, with all parameter values already bound.
  The base classes `AdditiveComponent` / `AnalyticalAdditive` that provide the
  default `emission_lines` are not under `src/`; Modelled from the spec:
  a component that does not declare fine structure contributes zero line flux
  (its mean energy is the bin midpoint, as in the components of
  `additive.py`).
-/

/-- `component.type` tag: the string tag `"additive"` / `"multiplicative"`,
or any other string (`from_component` branches on exactly these two). -/
inductive CType
  | additive
  | multiplicative
  | other (tag : String)
deriving DecidableEq

/-- `operation_type` tag of an operation node (`"add"` or `"mul"`),
as set by `SpectralModel.__add__` / `SpectralModel.__mul__`. -/
inductive OpType
  | add
  | mul
deriving DecidableEq

/-- A component node as the flux evaluator and serializer see it:
`name` is the Python class `__name__`, `ctype` is `component.type`,
`continuum` is the elementwise continuum function with parameters bound,
`lines` is the per-bin `emission_lines(e_low, e_high)` pair
(line flux, mean energy) with parameters bound, and `kwargs` are the
explicitly bound keyword arguments (values already rendered to text,
as Python's f-string does). -/
structure Comp where
  name : String
  ctype : CType
  continuum : ℚ → ℚ
  lines : ℚ → ℚ → ℚ × ℚ
  kwargs : List (String × String)

/-- A spectral model graph built from fresh-id components: a binary tree of
operation nodes over component leaves (the unique sink is implicit). -/
inductive SModel
  | comp (c : Comp)
  | op (t : OpType) (l r : SModel)

/-- Topological continuum evaluation of the graph
(`SpectralModel.flux`, first loop): component nodes contribute
`continuum(energies)` elementwise, operation nodes combine their two
predecessors with `lambda x, y: x + y` resp. `x * y` elementwise; the value at
the sink's unique predecessor is the model's continuum curve. -/
def contEval : SModel → ℚ → ℚ
  | SModel.comp c, e => c.continuum e
  | SModel.op OpType.add l r, e => contEval l e + contEval r e
  | SModel.op OpType.mul l r, e => contEval l e * contEval r e

/-- The knot grid `energies = jnp.hstack((e_low, e_high[-1]))`:
all low edges followed by the last high edge. -/
def knots (n : ℕ) (eLow eHigh : ℕ → ℚ) (j : ℕ) : ℚ :=
  if j < n then eLow j else eHigh (n - 1)

/-- `jax.scipy.integrate.trapezoid` along axis 0 of a two-row stack:
with samples `y0, y1` at coordinates `x0, x1` it is `(y0 + y1)/2 * (x1 - x0)`
(the code always stacks exactly two rows). -/
def trapezoid2 (y0 y1 x0 x1 : ℚ) : ℚ :=
  (y0 + y1) / 2 * (x1 - x0)

/-- Per-bin integrated continuum of `SpectralModel.flux`:
`flux_1D` is the continuum curve on the knot grid,
`flux = jnp.stack((flux_1D[:-1], flux_1D[1:]))` pairs knot `i` with knot
`i+1`, and the trapezoid is taken against `x = jnp.log(energies_to_integrate)`
where `energies_to_integrate = jnp.stack((e_low, e_high))`; the integrand
carries one factor of the energy row in photon mode and its square in energy
mode. -/
def continuumFlux (log : ℚ → ℚ) (energyFlux : Bool) (m : SModel) (n : ℕ)
    (eLow eHigh : ℕ → ℚ) (i : ℕ) : ℚ :=
  let flux1D := fun j => contEval m (knots n eLow eHigh j)
  if energyFlux then
    trapezoid2 (flux1D i * (eLow i) ^ 2) (flux1D (i + 1) * (eHigh i) ^ 2)
      (log (eLow i)) (log (eHigh i))
  else
    trapezoid2 (flux1D i * eLow i) (flux1D (i + 1) * eHigh i)
      (log (eLow i)) (log (eHigh i))

/-- `SpectralModel.find_multiplicative_components`: for a `mul`-typed
operation node, each predecessor contributes itself if it is a multiplicative
component, or its own recursive result if it is a further `mul` operation
node; every other node (including `add` operation nodes, which terminate the
recursion) contributes nothing. -/
def findMult : SModel → List Comp
  | SModel.op OpType.mul l r =>
      (match l with
       | SModel.comp c => if c.ctype = CType.multiplicative then [c] else []
       | _ => findMult l) ++
      (match r with
       | SModel.comp c => if c.ctype = CType.multiplicative then [c] else []
       | _ => findMult r)
  | _ => []

/-- The fine-structure pass of `SpectralModel.flux`: the additive roots
(in-degree-0 component nodes with `component_type == "additive"`), each paired
with the multiplicative components collected by walking
`nx.shortest_path(root, "out")` in reverse and extending with
`find_multiplicative_components` at every node of the path.  `anc` is the list
of operation nodes between the current subtree and the sink, nearest first
(so `anc.reverse` is the path walked from the sink downwards, matching the
code's `nodes_id_in_path[::-1]` order). -/
def finePass : List SModel → SModel → List (Comp × List Comp)
  | anc, SModel.comp c =>
      if c.ctype = CType.additive then
        [(c, (anc.reverse.map findMult).flatten)]
      else []
  | anc, SModel.op t l r =>
      finePass (SModel.op t l r :: anc) l ++ finePass (SModel.op t l r :: anc) r

/-- One root's scaled per-bin line flux: `emission_lines(e_low, e_high)`
gives `(flux_from_component, mean_energy)`, then
`flux_from_component *= continuum(mean_energy)` for every collected
multiplicative node. -/
def lineFluxScaled (r : Comp × List Comp) (lo hi : ℚ) : ℚ :=
  r.2.foldl (fun acc c => acc * c.continuum (r.1.lines lo hi).2)
    (r.1.lines lo hi).1

/-- Per-bin fine-structure flux summed over all additive roots; in energy
mode each contribution is passed through the two-row log-energy trapezoid
`trapezoid(flux_from_component * energies_to_integrate,
x=jnp.log(energies_to_integrate))`. -/
def fineFlux (log : ℚ → ℚ) (energyFlux : Bool) (m : SModel)
    (eLow eHigh : ℕ → ℚ) (i : ℕ) : ℚ :=
  ((finePass [] m).map (fun r =>
    let ff := lineFluxScaled r (eLow i) (eHigh i)
    if energyFlux then
      trapezoid2 (ff * eLow i) (ff * eHigh i) (log (eLow i)) (log (eHigh i))
    else ff)).sum

/-- `SpectralModel.flux`: integrated continuum plus fine-structure
contributions, per bin.  The code returns this sum directly — there is no
clip and no bin validation in the evaluator. -/
def flux (log : ℚ → ℚ) (energyFlux : Bool) (m : SModel) (n : ℕ)
    (eLow eHigh : ℕ → ℚ) (i : ℕ) : ℚ :=
  continuumFlux log energyFlux m n eLow eHigh i +
    fineFlux log energyFlux m eLow eHigh i

/-- The additive roots of a model, in the order the evaluator visits them. -/
def addRoots (m : SModel) : List Comp :=
  (finePass [] m).map Prod.fst

/-- `true` iff no leaf of the model is an additive component
(a "multiplicative-only" model in the sense of the spec). -/
def hasNoAdditiveLeaf : SModel → Bool
  | SModel.comp c => decide (c.ctype ≠ CType.additive)
  | SModel.op _ l r => hasNoAdditiveLeaf l && hasNoAdditiveLeaf r

/-- Display symbol of an operation node (`operation_label`): `"+"` for
addition, `"*"` for multiplication. -/
def opLabel : OpType → String
  | OpType.add => "+"
  | OpType.mul => "*"

/-- Join a list of strings with a separator (Python `sep.join`). -/
def joinSep (sep : String) : List String → String
  | [] => ""
  | [s] => s
  | s :: rest => s ++ sep ++ joinSep sep rest

/-- `build_expression` inside `SpectralModel.__str__`: a component node
renders as its class `__name__` followed by `(key=value, …)` over exactly the
explicitly bound kwargs (or `()` when none are bound); an operation node
renders its two predecessors joined by `" SYMBOL "` inside parentheses; the
sink renders its unique predecessor. -/
def buildExpression : SModel → String
  | SModel.comp c =>
      c.name ++
        (if c.kwargs.isEmpty then "()"
         else "(" ++ joinSep ", " (c.kwargs.map (fun kv => kv.1 ++ "=" ++ kv.2)) ++ ")")
  | SModel.op t l r =>
      "(" ++ buildExpression l ++ " " ++ opLabel t ++ " " ++ buildExpression r ++ ")"

/-- `SpectralModel.__str__` (= `to_string`): render the sink's predecessor
and then take the Python slice `[1:-1]`, i.e. unconditionally drop the first
and the last character of the rendered expression. -/
def toStringModel (m : SModel) : String :=
  ((buildExpression m).drop 1).dropRight 1

/-- `jnp.clip(x, a_min=f)`: clamp from below. -/
def jnpClip (x floor : ℚ) : ℚ := max x floor

/-- The value `ForwardModel.__call__` (in `fit.py`) returns for output
channel `j`: the transfer-matrix row applied to the energy-integrated model
flux vector `t` (of length `p`), clipped to `a_min = 1e-6`.  The
trapezoid-integrated model flux is abstracted as the vector `t`. -/
def forwardModelCounts (tm : ℕ → ℕ → ℚ) (t : ℕ → ℚ) (p : ℕ) (j : ℕ) : ℚ :=
  jnpClip (((List.range p).map (fun k => tm j k * t k)).sum) (1 / 1000000)

/- Concrete component instances used in witnesses and counterexamples.
`constC` / `zeroConstC` are `AdditiveConstant` from `additive.py`
(continuum `norm * ones_like(energy)`) with `norm = 1` resp. `norm = 0`; its
`emission_lines` default is Modelled from the spec: no declared fine
structure, hence zero line flux.  `absC` is a multiplicative absorber with a
constant continuum; `gaussLikeC` is a `Gauss`-shaped line component: its
continuum is `jnp.zeros_like(energy)` exactly as in `Gauss.__call__`, and its
fine structure returns a per-bin line flux together with the bin's mean
energy `(e_min + e_max)/2` exactly as `Gauss.fine_structure` does. -/

/-- Identity stand-in for the opaque `log` parameter in concrete witnesses. -/
def idlog : ℚ → ℚ := fun x => x

/-- Constant low-edge grid used in witnesses. -/
def b1 : ℕ → ℚ := fun _ => 1

/-- Constant high-edge grid used in witnesses. -/
def b2 : ℕ → ℚ := fun _ => 2

/-- High-edge grid `[2, 3, 4, …]` used in the contiguous-bin witness
(low edges `fun i => i + 1`, high edges `fun i => i + 2`). -/
def b3h : ℕ → ℚ := fun i => (i : ℚ) + 2

/-- Low-edge grid `[1, 2, 3, …]` contiguous with `b3h`. -/
def b3l : ℕ → ℚ := fun i => (i : ℚ) + 1

/-- `AdditiveConstant` with `norm = 1`. -/
def constC : Comp :=
  Comp.mk "AdditiveConstant" CType.additive (fun _ => 1)
    (fun lo hi => (0, (lo + hi) / 2)) []

/-- `AdditiveConstant` with `norm = 0`: its continuum is identically zero. -/
def zeroConstC : Comp :=
  Comp.mk "AdditiveConstant" CType.additive (fun _ => 0)
    (fun lo hi => (0, (lo + hi) / 2)) []

/-- A multiplicative absorber with constant continuum `2`. -/
def absC : Comp :=
  Comp.mk "Absorber" CType.multiplicative (fun _ => 2)
    (fun lo hi => (0, (lo + hi) / 2)) []

/-- A `Gauss`-shaped line component: zero continuum, per-bin line flux
`hi - lo` with mean energy `(lo + hi)/2`. -/
def gaussLikeC : Comp :=
  Comp.mk "Gauss" CType.additive (fun _ => 0)
    (fun lo hi => (hi - lo, (lo + hi) / 2)) []

/-- `find_multiplicative_components` of an `add` operation node is empty:
additive operation nodes terminate the collection. -/
theorem findMult_add (l r : SModel) :
    findMult (SModel.op OpType.add l r) = [] := rfl

/-- Appending to the ancestor stack a node that contributes no multiplicative
components leaves the fine-structure pass unchanged. -/
theorem finePass_anc_snoc (a : SModel) (ha : findMult a = []) :
    ∀ (m : SModel) (anc : List SModel),
      finePass (anc ++ [a]) m = finePass anc m := by
  intro m
  induction m with
  | comp c =>
    intro anc
    by_cases hc : c.ctype = CType.additive
    · simp [finePass, hc, ha]
    · simp [finePass, hc]
  | op t l r ihl ihr =>
    intro anc
    simp only [finePass]
    rw [show SModel.op t l r :: (anc ++ [a]) = (SModel.op t l r :: anc) ++ [a]
          from rfl,
        ihl, ihr]

/-- The fine-structure pass of `A + B` is the concatenation of the passes of
`A` and of `B` (same roots, same collected multiplicative factors). -/
theorem finePass_add (A B : SModel) :
    finePass [] (SModel.op OpType.add A B) = finePass [] A ++ finePass [] B := by
  simp only [finePass]
  rw [show [SModel.op OpType.add A B] = ([] : List SModel) ++ [SModel.op OpType.add A B]
        from rfl,
      finePass_anc_snoc _ (findMult_add A B) A,
      finePass_anc_snoc _ (findMult_add A B) B]

/-- Per-bin fine-structure flux of `A + B` is the sum of the two operands'. -/
theorem fineFlux_add (log : ℚ → ℚ) (eflux : Bool) (A B : SModel)
    (eLow eHigh : ℕ → ℚ) (i : ℕ) :
    fineFlux log eflux (SModel.op OpType.add A B) eLow eHigh i
      = fineFlux log eflux A eLow eHigh i + fineFlux log eflux B eLow eHigh i := by
  simp [fineFlux, finePass_add]

/-- Per-bin integrated continuum of `A + B` is the sum of the two operands'. -/
theorem continuumFlux_add (log : ℚ → ℚ) (eflux : Bool) (A B : SModel) (n : ℕ)
    (eLow eHigh : ℕ → ℚ) (i : ℕ) :
    continuumFlux log eflux (SModel.op OpType.add A B) n eLow eHigh i
      = continuumFlux log eflux A n eLow eHigh i
        + continuumFlux log eflux B n eLow eHigh i := by
  cases eflux <;> simp [continuumFlux, trapezoid2, contEval] <;> ring

/-- C3, amended: for any two models `A` and `B` whose graphs share no node
id — equivalently, whose composed graph is the node-disjoint tree the
builder produces from operands built independently with fresh uuid4 ids —
the flux of the composed model `A + B` equals the elementwise sum of the
flux of `A` and the flux of `B`, exactly, in both photon and energy mode;
the additive roots of `A + B` are then the concatenation of both operands'
additive roots, each with the same collected multiplicative factors.  The
unamended claim, additivity for arbitrary operands, is false: when the
operands share node ids (shared construction history), `nx.compose` merges
the shared subgraph, a shared additive root appears in `root_nodes` only
once, and its emission lines are counted once instead of twice — see
`c3_shared_root_counterexample`. -/
theorem c3_flux_additivity (log : ℚ → ℚ) (eflux : Bool) (A B : SModel)
    (n : ℕ) (eLow eHigh : ℕ → ℚ) (i : ℕ) :
    flux log eflux (SModel.op OpType.add A B) n eLow eHigh i
      = flux log eflux A n eLow eHigh i + flux log eflux B n eLow eHigh i
    ∧ addRoots (SModel.op OpType.add A B) = addRoots A ++ addRoots B := by
  constructor
  · simp only [flux, continuumFlux_add, fineFlux_add]
    ring
  · simp [addRoots, finePass_add]

/-- C2, counterexample: `AdditiveConstant` with `norm = 0` over the single
bin `[1, 2]` evaluates to flux `0`, which is below the floor `1e-6`; the
evaluator applies no clip (this holds for every `log`, in particular for the
real logarithm — the continuum is identically zero). -/
theorem c2_no_floor_counterexample :
    flux idlog false (SModel.comp zeroConstC) 1 b1 b2 0 = 0
    ∧ ¬ ((1 : ℚ) / 1000000 ≤ flux idlog false (SModel.comp zeroConstC) 1 b1 b2 0) := by
  have h : flux idlog false (SModel.comp zeroConstC) 1 b1 b2 0 = 0 := by
    norm_num [flux, continuumFlux, fineFlux, finePass, lineFluxScaled,
      trapezoid2, contEval, knots, zeroConstC, idlog, b1, b2]
  exact ⟨h, by rw [h]; norm_num⟩

/-- C2, amended: the only `1e-6` floor in the code is the `jnp.clip(…,
a_min=1e-6)` in `ForwardModel.__call__` (`fit.py`), applied to the
transfer-matrix-folded count values, not by the flux evaluator; every value
`ForwardModel.__call__` returns is `≥ 1e-6`. -/
theorem c2_forward_model_floor (tm : ℕ → ℕ → ℚ) (t : ℕ → ℚ) (p j : ℕ) :
    (1 : ℚ) / 1000000 ≤ forwardModelCounts tm t p j :=
  le_max_right _ _

/-- A model with no additive leaf has an empty fine-structure pass, whatever
the ancestor stack. -/
theorem finePass_eq_nil_of_noAdditive (m : SModel)
    (h : hasNoAdditiveLeaf m = true) :
    ∀ anc : List SModel, finePass anc m = [] := by
  induction m with
  | comp c =>
    intro anc
    simp only [hasNoAdditiveLeaf, decide_eq_true_eq] at h
    simp [finePass, h]
  | op t l r ihl ihr =>
    intro anc
    simp only [hasNoAdditiveLeaf, Bool.and_eq_true] at h
    simp [finePass, ihl h.1, ihr h.2]

/-- C9, amended: the flux evaluator performs no bin validation and raises no
`InvalidBinsError` (no such error exists in the code; its embedding is a
total function).  For a multiplicative-only model — no additive root — the
fine-structure pass is empty and evaluation returns the continuum-only
result, in both modes, for arbitrary bins. -/
theorem c9_multiplicative_only_continuum (m : SModel)
    (h : hasNoAdditiveLeaf m = true) (log : ℚ → ℚ) (eflux : Bool) (n : ℕ)
    (eLow eHigh : ℕ → ℚ) (i : ℕ) :
    flux log eflux m n eLow eHigh i = continuumFlux log eflux m n eLow eHigh i := by
  simp [flux, fineFlux, finePass_eq_nil_of_noAdditive m h]

/-- C9, witness for the amended theorem: `Absorber * Absorber` is
multiplicative-only and its flux is the continuum-only result. -/
theorem c9_witness :
    hasNoAdditiveLeaf (SModel.op OpType.mul (SModel.comp absC) (SModel.comp absC)) = true
    ∧ flux idlog false (SModel.op OpType.mul (SModel.comp absC) (SModel.comp absC)) 1 b1 b2 0
        = continuumFlux idlog false
            (SModel.op OpType.mul (SModel.comp absC) (SModel.comp absC)) 1 b1 b2 0 :=
  ⟨by decide,
   c9_multiplicative_only_continuum _ (by decide) idlog false 1 b1 b2 0⟩

/-- C9, counterexample: on non-monotonic (decreasing) bins `e_low = [2]`,
`e_high = [1]` the evaluator raises nothing — it returns the ordinary
log-trapezoid value, here `-(3/2)` for `AdditiveConstant` with `norm = 1`
under the identity stand-in for `log` (the code has no error path at all, so
the claimed `InvalidBinsError` cannot be produced). -/
theorem c9_no_bin_validation_counterexample :
    flux idlog false (SModel.comp constC) 1 (fun _ => 2) (fun _ => 1) 0 = -(3 / 2) := by
  norm_num [flux, continuumFlux, fineFlux, finePass, lineFluxScaled,
    trapezoid2, contEval, knots, constC, idlog]

/-- C7: per bin, the continuum contribution is a two-point trapezoid in
log-energy: the quadrature coordinates are `log e_low[i]` and `log e_high[i]`,
and the integrated quantity is the continuum curve on the knot grid times the
energy row in photon mode and times its square — exactly one extra factor of
the energy — in energy mode. -/
theorem c7_log_trapezoid (log : ℚ → ℚ) (m : SModel) (n : ℕ)
    (eLow eHigh : ℕ → ℚ) (i : ℕ) (h : i < n) :
    continuumFlux log false m n eLow eHigh i
      = (contEval m (eLow i) * eLow i
          + contEval m (knots n eLow eHigh (i + 1)) * eHigh i) / 2
        * (log (eHigh i) - log (eLow i))
    ∧ continuumFlux log true m n eLow eHigh i
      = (contEval m (eLow i) * (eLow i) ^ 2
          + contEval m (knots n eLow eHigh (i + 1)) * (eHigh i) ^ 2) / 2
        * (log (eHigh i) - log (eLow i)) := by
  constructor <;> simp [continuumFlux, trapezoid2, knots, h]

/-- C7, witness: the single-bin constant model over `[1, 2]`. -/
theorem c7_witness :
    0 < 1
    ∧ (continuumFlux idlog false (SModel.comp constC) 1 b1 b2 0
        = (contEval (SModel.comp constC) (b1 0) * b1 0
            + contEval (SModel.comp constC) (knots 1 b1 b2 1) * b2 0) / 2
          * (idlog (b2 0) - idlog (b1 0))
      ∧ continuumFlux idlog true (SModel.comp constC) 1 b1 b2 0
        = (contEval (SModel.comp constC) (b1 0) * (b1 0) ^ 2
            + contEval (SModel.comp constC) (knots 1 b1 b2 1) * (b2 0) ^ 2) / 2
          * (idlog (b2 0) - idlog (b1 0))) :=
  ⟨by decide, c7_log_trapezoid idlog (SModel.comp constC) 1 b1 b2 0 (by decide)⟩

/-- C10: the knot grid is all low edges plus only the last high edge; for
`i + 1 < n` the upper sample of bin `i`'s trapezoid is the continuum value at
`e_low[i+1]` while the quadrature coordinate is `log e_high[i]`; hence the
trapezoid uses the continuum at the bin's true edges exactly when
`e_high[i] = e_low[i+1]` (contiguous bins). -/
theorem c10_knot_pairing (log : ℚ → ℚ) (m : SModel) (n : ℕ)
    (eLow eHigh : ℕ → ℚ) (i : ℕ) (h : i + 1 < n) :
    (∀ j, j < n → knots n eLow eHigh j = eLow j)
    ∧ knots n eLow eHigh n = eHigh (n - 1)
    ∧ continuumFlux log false m n eLow eHigh i
        = (contEval m (eLow i) * eLow i + contEval m (eLow (i + 1)) * eHigh i) / 2
          * (log (eHigh i) - log (eLow i))
    ∧ (eHigh i = eLow (i + 1) →
        continuumFlux log false m n eLow eHigh i
          = (contEval m (eLow i) * eLow i + contEval m (eHigh i) * eHigh i) / 2
            * (log (eHigh i) - log (eLow i))) := by
  refine ⟨fun j hj => by simp [knots, hj], by simp [knots], ?_, ?_⟩
  · simp [continuumFlux, trapezoid2, knots, h, Nat.lt_of_succ_lt h]
  · intro hcont
    simp [continuumFlux, trapezoid2, knots, h, Nat.lt_of_succ_lt h, hcont]

/-- C10, witness: two contiguous bins `[1, 2]`, `[2, 3]`. -/
theorem c10_witness :
    0 + 1 < 2
    ∧ ((∀ j, j < 2 → knots 2 b3l b3h j = b3l j)
      ∧ knots 2 b3l b3h 2 = b3h (2 - 1)
      ∧ continuumFlux idlog false (SModel.comp constC) 2 b3l b3h 0
          = (contEval (SModel.comp constC) (b3l 0) * b3l 0
              + contEval (SModel.comp constC) (b3l (0 + 1)) * b3h 0) / 2
            * (idlog (b3h 0) - idlog (b3l 0))
      ∧ (b3h 0 = b3l (0 + 1) →
          continuumFlux idlog false (SModel.comp constC) 2 b3l b3h 0
            = (contEval (SModel.comp constC) (b3l 0) * b3l 0
                + contEval (SModel.comp constC) (b3h 0) * b3h 0) / 2
              * (idlog (b3h 0) - idlog (b3l 0)))) :=
  ⟨by decide, c10_knot_pairing idlog (SModel.comp constC) 2 b3l b3h 0 (by decide)⟩

/-- C4: in the claim's scenario `M * (A + G)` — a multiplicative absorber
over an additive continuum component plus an additive line component — the
fine-structure pass collects exactly the absorber for each additive root
(walking each root's path to the sink, recursing through `mul` operation
predecessors, with additive nodes terminating the recursion), and the flux
is the integrated continuum plus the line flux of `G` multiplied by the
absorber's continuum evaluated at the bin's mean energy
`(e_low[i] + e_high[i]) / 2` — not at the bin edges. -/
theorem c4_line_multiplicative_scaling (mC aC gC : Comp)
    (hm : mC.ctype = CType.multiplicative)
    (ha : aC.ctype = CType.additive)
    (hg : gC.ctype = CType.additive)
    (haL : ∀ lo hi, aC.lines lo hi = (0, (lo + hi) / 2))
    (hgE : ∀ lo hi, (gC.lines lo hi).2 = (lo + hi) / 2)
    (log : ℚ → ℚ) (n : ℕ) (eLow eHigh : ℕ → ℚ) (i : ℕ) :
    finePass [] (SModel.op OpType.mul (SModel.comp mC)
        (SModel.op OpType.add (SModel.comp aC) (SModel.comp gC)))
      = [(aC, [mC]), (gC, [mC])]
    ∧ flux log false (SModel.op OpType.mul (SModel.comp mC)
        (SModel.op OpType.add (SModel.comp aC) (SModel.comp gC))) n eLow eHigh i
      = continuumFlux log false (SModel.op OpType.mul (SModel.comp mC)
          (SModel.op OpType.add (SModel.comp aC) (SModel.comp gC))) n eLow eHigh i
        + (gC.lines (eLow i) (eHigh i)).1 * mC.continuum ((eLow i + eHigh i) / 2) := by
  have hfp : finePass [] (SModel.op OpType.mul (SModel.comp mC)
      (SModel.op OpType.add (SModel.comp aC) (SModel.comp gC)))
      = [(aC, [mC]), (gC, [mC])] := by
    simp [finePass, findMult, hm, ha, hg]
  refine ⟨hfp, ?_⟩
  simp [flux, fineFlux, hfp, lineFluxScaled, haL, hgE]

/-- C4, witness: the scenario instantiated with the constant absorber, the
constant additive component and the `Gauss`-shaped line component over the
bin `[1, 2]`. -/
theorem c4_witness :
    absC.ctype = CType.multiplicative
    ∧ constC.ctype = CType.additive
    ∧ gaussLikeC.ctype = CType.additive
    ∧ (∀ lo hi : ℚ, constC.lines lo hi = (0, (lo + hi) / 2))
    ∧ (∀ lo hi : ℚ, (gaussLikeC.lines lo hi).2 = (lo + hi) / 2)
    ∧ (finePass [] (SModel.op OpType.mul (SModel.comp absC)
          (SModel.op OpType.add (SModel.comp constC) (SModel.comp gaussLikeC)))
        = [(constC, [absC]), (gaussLikeC, [absC])]
      ∧ flux idlog false (SModel.op OpType.mul (SModel.comp absC)
          (SModel.op OpType.add (SModel.comp constC) (SModel.comp gaussLikeC))) 1 b1 b2 0
        = continuumFlux idlog false (SModel.op OpType.mul (SModel.comp absC)
            (SModel.op OpType.add (SModel.comp constC) (SModel.comp gaussLikeC))) 1 b1 b2 0
          + (gaussLikeC.lines (b1 0) (b2 0)).1 * absC.continuum ((b1 0 + b2 0) / 2)) :=
  ⟨rfl, rfl, rfl, fun _ _ => rfl, fun _ _ => rfl,
   c4_line_multiplicative_scaling absC constC gaussLikeC rfl rfl rfl
     (fun _ _ => rfl) (fun _ _ => rfl) idlog 1 b1 b2 0⟩

/-- C1: `__str__` takes the Python slice `[1:-1]` of the rendered expression
unconditionally.  For a model built from a single component the rendered
expression `"AdditiveConstant()"` has no outer parentheses, so the slice
mangles it to `"dditiveConstant("` — stripping the first character of the
class name and the closing parenthesis instead of outer parentheses, and the
result is not a parseable expression, so `from_string(to_string(m))` cannot
reproduce the model's flux.  For an operation-rooted model the slice does
strip exactly the operation node's outer parentheses (third conjunct). -/
theorem c1_single_component_to_string :
    toStringModel (SModel.comp constC) = "dditiveConstant("
    ∧ toStringModel (SModel.comp constC) ≠ "AdditiveConstant()"
    ∧ toStringModel (SModel.op OpType.mul (SModel.comp absC) (SModel.comp constC))
        = "Absorber() * AdditiveConstant()" :=
  ⟨rfl, by decide, rfl⟩

/-- A graph node's attribute dict, restricted to the attributes the claims
read: `type` (`"component"` / `"operation"` / `"out"`), `component_type`,
`name` (the lowercased kind, later overwritten by the namespace resolver) and
`operation_type`.  The layout-only `depth`, the haiku `params` blob, the
`function` / `component` references and `kwargs` are not needed by any claim
and are omitted. -/
structure RNode where
  ntype : String
  ctype : Option String
  name : Option String
  otype : Option String
deriving DecidableEq

/-- The sink node added by `from_component` / `compose`
(`graph.add_node("out", type="out")`). -/
def outNode : RNode := RNode.mk "out" none none none

/-- A `networkx.DiGraph` as the builder uses it: nodes keyed by their string
id (uuid4 for components and operations, the fixed literal `"out"` for the
sink) in insertion order, and a duplicate-free list of directed edges. -/
structure RGraph where
  nodes : List (String × RNode)
  edges : List (String × String)
deriving DecidableEq

/-- The node ids of a graph, in insertion order. -/
def idsOf (g : RGraph) : List String := g.nodes.map Prod.fst

/-- In-degree of node `k`: the number of edges whose target is `k`. -/
def inDeg (g : RGraph) (k : String) : ℕ :=
  g.edges.countP (fun e => e.2 == k)

/-- `SpectralModel.from_component`: a two-node graph, the component node
(with `type="component"`, `component_type=component.type`,
`name=component.__name__.lower()`) wired to the `"out"` sink.  All three
branches on `component.type` build this same graph; they differ only in the
haiku initializer they install (see `fromComponentInit`). -/
def fromComponentG (cid : String) (ctype : String) (kind : String) : RGraph :=
  RGraph.mk
    [(cid, RNode.mk "component" (some ctype) (some kind) none), ("out", outNode)]
    [(cid, "out")]

/-- Which `lam_func` the branch on `component.type` in `from_component`
installs: continuum plus emission lines for `"additive"`, continuum only for
`"multiplicative"`, and for any other type a placeholder that merely prints
"Some components are not working at this stage" — no exception is raised. -/
inductive InitFn
  | contAndLines
  | contOnly
  | printWarning
deriving DecidableEq

/-- The branch selection of `from_component` on `component.type`. -/
def fromComponentInit (ctype : String) : InitFn :=
  if ctype = "additive" then InitFn.contAndLines
  else if ctype = "multiplicative" then InitFn.contOnly
  else InitFn.printWarning

/-- Node merge of `networkx.compose`: a node of `g1` keeps its id, with
`g2`'s attributes taking precedence when `g2` also has that id. -/
def mergeNode (g2 : RGraph) (kv : String × RNode) : String × RNode :=
  match List.lookup kv.1 g2.nodes with
  | some v => (kv.1, v)
  | none => kv

/-- Node filter of `networkx.compose`: keep the `g2` nodes not in `g1`. -/
def keepNode (g1 : RGraph) (kv : String × RNode) : Bool :=
  (List.lookup kv.1 g1.nodes).isNone

/-- `networkx.compose(g1, g2)`: node set union keyed by id — a node present
in both graphs appears once, with `g2`'s attributes taking precedence — and
edge set union (no duplicated edges). -/
def nxCompose (g1 g2 : RGraph) : RGraph :=
  RGraph.mk
    (g1.nodes.map (mergeNode g2) ++ g2.nodes.filter (keepNode g1))
    (g1.edges ++ g2.edges.filter (fun e => !(g1.edges.contains e)))

/-- Renaming used by `nx.relabel_nodes(graph, {"out": node_id})`. -/
def renOut (nid : String) (k : String) : String :=
  if k = "out" then nid else k

/-- `renOut` applied to both endpoints of an edge. -/
def renEdge (nid : String) (e : String × String) : String × String :=
  (renOut nid e.1, renOut nid e.2)

/-- `renOut` applied to a keyed node, keeping the attributes. -/
def relNode (nid : String) (kv : String × RNode) : String × RNode :=
  (renOut nid kv.1, kv.2)

/-- `nx.relabel_nodes(graph, {"out": node_id})`: rename the (unique) `"out"`
key everywhere, keeping attributes and order. -/
def relabelOut (g : RGraph) (nid : String) : RGraph :=
  RGraph.mk (g.nodes.map (relNode nid)) (g.edges.map (renEdge nid))

/-- Single-node update of the `nx.set_node_attributes` calls in `compose`:
node `nid` becomes an operation node (`type="operation"`,
`operation_type=operation`), keeping its other attributes. -/
def setOpNode (nid otype : String) (kv : String × RNode) : String × RNode :=
  if kv.1 = nid then (kv.1, RNode.mk "operation" kv.2.ctype kv.2.name (some otype))
  else kv

/-- The `nx.set_node_attributes` calls in `compose`, over the node list. -/
def setOpAttrs (g : RGraph) (nid : String) (otype : String) : RGraph :=
  RGraph.mk (g.nodes.map (setOpNode nid otype)) g.edges

/-- `SpectralModel.compose`: fuse the two raw graphs at their shared `"out"`
node with `nx.compose`, relabel `"out"` to the fresh operation id, tag it as
an operation node, then add a fresh `"out"` sink and the edge from the
operation node to it.  (The subsequent per-node `depth` computation is
layout-only and omitted.) -/
def composeG (g1 g2 : RGraph) (nid : String) (otype : String) : RGraph :=
  let g := setOpAttrs (relabelOut (nxCompose g1 g2) nid) nid otype
  RGraph.mk (g.nodes ++ [("out", outNode)]) (g.edges ++ [(nid, "out")])

/-- Structural well-formedness of a builder graph: duplicate-free node keys
and edges, edge endpoints among the node keys, no edge out of the sink, the
sink present with its attributes, sink in-degree 1, and every operation node
with in-degree exactly 2. -/
def GraphWF (g : RGraph) : Prop :=
  (idsOf g).Nodup
  ∧ g.edges.Nodup
  ∧ (∀ e ∈ g.edges, e.1 ∈ idsOf g ∧ e.2 ∈ idsOf g)
  ∧ (∀ e ∈ g.edges, e.1 ≠ "out")
  ∧ List.lookup "out" g.nodes = some outNode
  ∧ inDeg g "out" = 1
  ∧ (∀ kv ∈ g.nodes, kv.2.ntype = "operation" → inDeg g kv.1 = 2)

/-- Node-id sets of two graphs may only share the sink id `"out"`. -/
def DisjointIds (g1 g2 : RGraph) : Prop :=
  ∀ k ∈ idsOf g1, k ∈ idsOf g2 → k = "out"

instance (g : RGraph) : Decidable (GraphWF g) := by
  unfold GraphWF
  infer_instance

instance (g1 g2 : RGraph) : Decidable (DisjointIds g1 g2) := by
  unfold DisjointIds
  infer_instance

/-- C5, counterexample: composing a model with itself (`A + A`, a single
shared model object) is not node-disjoint — `nx.compose` merges the shared
uuid — and the new operation node ends up with exactly one inbound edge,
not two (the subsequent flux trace in `SpectralModel.__init__` then fails on
`list(in_edges)[1]`). -/
theorem c5_shared_identity_counterexample :
    inDeg (composeG (fromComponentG "c1" "additive" "additiveconstant")
        (fromComponentG "c1" "additive" "additiveconstant") "op1" "add") "op1" = 1
    ∧ ¬ inDeg (composeG (fromComponentG "c1" "additive" "additiveconstant")
        (fromComponentG "c1" "additive" "additiveconstant") "op1" "add") "op1" = 2 := by
  constructor <;> decide

/-- C8, counterexample: `from_component` with a component type that is
neither additive nor multiplicative does not raise — it returns the ordinary
two-node graph and installs the print-a-warning placeholder initializer
(no `InvalidComponentError` exists anywhere in the code). -/
theorem c8_invalid_type_counterexample :
    fromComponentG "c1" "convolution" "weird"
      = RGraph.mk
          [("c1", RNode.mk "component" (some "convolution") (some "weird") none),
           ("out", outNode)]
          [("c1", "out")]
    ∧ fromComponentInit "convolution" = InitFn.printWarning :=
  ⟨rfl, by decide⟩

/-- C8, amended: `from_component` never raises.  For every component type —
valid or not — it returns the two-node graph `component → sink`; when the
type is neither `"additive"` nor `"multiplicative"` the installed parameter
initializer is the print-a-warning placeholder rather than an abort. -/
theorem c8_from_component_total (cid ctype kind : String)
    (h1 : ctype ≠ "additive") (h2 : ctype ≠ "multiplicative") :
    (fromComponentG cid ctype kind).nodes
      = [(cid, RNode.mk "component" (some ctype) (some kind) none), ("out", outNode)]
    ∧ (fromComponentG cid ctype kind).edges = [(cid, "out")]
    ∧ fromComponentInit ctype = InitFn.printWarning := by
  refine ⟨rfl, rfl, ?_⟩
  simp [fromComponentInit, h1, h2]

/-- C8, witness for the amended theorem. -/
theorem c8_witness :
    "convolution" ≠ "additive"
    ∧ "convolution" ≠ "multiplicative"
    ∧ ((fromComponentG "c1" "convolution" "gaussconv").nodes
        = [("c1", RNode.mk "component" (some "convolution") (some "gaussconv") none),
           ("out", outNode)]
      ∧ (fromComponentG "c1" "convolution" "gaussconv").edges = [("c1", "out")]
      ∧ fromComponentInit "convolution" = InitFn.printWarning) :=
  ⟨by decide, by decide,
   c8_from_component_total "c1" "convolution" "gaussconv" (by decide) (by decide)⟩

/-- A successful association-list lookup means the key is among the ids. -/
theorem mem_idsOf_of_lookup_some {g : RGraph} {k : String} {v : RNode}
    (h : List.lookup k g.nodes = some v) : k ∈ idsOf g := by
  have hs : (List.lookup k g.nodes).isSome := by simp [h]
  rcases List.lookup_isSome_iff.mp hs with ⟨p, hp, he⟩
  have hk : k = p.1 := by simpa using he
  exact hk ▸ List.mem_map_of_mem Prod.fst hp

/-- A key among the ids has a successful association-list lookup. -/
theorem lookup_isSome_of_mem_ids {g : RGraph} {k : String}
    (h : k ∈ idsOf g) : (List.lookup k g.nodes).isSome := by
  rcases List.mem_map.mp h with ⟨p, hp, rfl⟩
  exact List.lookup_isSome_iff.mpr ⟨p, hp, by simp⟩


/-- `mergeNode` keeps the node's key. -/
theorem mergeNode_fst (g2 : RGraph) (kv : String × RNode) :
    (mergeNode g2 kv).1 = kv.1 := by
  unfold mergeNode
  rcases List.lookup kv.1 g2.nodes with _ | v <;> rfl

/-- Relabel-then-retag sends the old sink to the new operation node. -/
theorem setRel_out (nid otype : String) (kv : String × RNode) (h : kv.1 = "out") :
    setOpNode nid otype (relNode nid kv)
      = (nid, RNode.mk "operation" kv.2.ctype kv.2.name (some otype)) := by
  simp [setOpNode, relNode, renOut, h]

/-- Relabel-then-retag fixes every node other than the old sink and the new
operation node. -/
theorem setRel_ne (nid otype : String) (kv : String × RNode)
    (h : kv.1 ≠ "out") (h2 : kv.1 ≠ nid) :
    setOpNode nid otype (relNode nid kv) = kv := by
  simp [setOpNode, relNode, renOut, h, h2]

/-- C5, amended: `compose` never fails and behaves node-disjointly exactly
when the operand graphs share no node id except the `"out"` sink — which is
how every model built through independent `from_component` / `compose` calls
comes out, since those draw fresh `uuid4` ids.  Then the composed graph has
all the operands' nodes plus the new operation node and the fresh sink
(node count `|g1| + |g2|`), the new operation node receives exactly the two
edges that previously fed the operands' sinks, the fresh sink has in-degree 1
fed by the operation node, and every operation node of the result has exactly
two inbound edges.  When the operands share node identity — e.g. literally
`A + A` on one model object — `nx.compose` merges the shared nodes and the
operation node is left with a single inbound edge: see the counterexample. -/
theorem c5_compose_disjoint (g1 g2 : RGraph) (nid otype : String)
    (h1 : GraphWF g1) (h2 : GraphWF g2) (hd : DisjointIds g1 g2)
    (hn1 : nid ∉ idsOf g1) (hn2 : nid ∉ idsOf g2) (hno : nid ≠ "out") :
    (composeG g1 g2 nid otype).nodes.length = g1.nodes.length + g2.nodes.length
    ∧ inDeg (composeG g1 g2 nid otype) nid = 2
    ∧ inDeg (composeG g1 g2 nid otype) "out" = 1
    ∧ (nid, "out") ∈ (composeG g1 g2 nid otype).edges
    ∧ (∀ kv ∈ (composeG g1 g2 nid otype).nodes, kv.2.ntype = "operation" →
        inDeg (composeG g1 g2 nid otype) kv.1 = 2) := by
  obtain ⟨h1nodup, h1enodup, h1mem, h1src, h1out, h1outdeg, h1op⟩ := h1
  obtain ⟨h2nodup, h2enodup, h2mem, h2src, h2out, h2outdeg, h2op⟩ := h2
  have hout1 : "out" ∈ idsOf g1 := mem_idsOf_of_lookup_some h1out
  have hout2 : "out" ∈ idsOf g2 := mem_idsOf_of_lookup_some h2out
  -- no edge is shared between the two operand graphs
  have hfilter : g2.edges.filter (fun e => !(g1.edges.contains e)) = g2.edges := by
    rw [List.filter_eq_self]
    intro e he
    have hne : e ∉ g1.edges := fun hmem1 =>
      h1src e hmem1 (hd e.1 (h1mem e hmem1).1 (h2mem e he).1)
    simp [hne]
  -- the composed edge list, explicitly
  have hedges : (composeG g1 g2 nid otype).edges
      = g1.edges.map (renEdge nid) ++ g2.edges.map (renEdge nid)
        ++ [(nid, "out")] := by
    simp only [composeG, setOpAttrs, relabelOut, nxCompose]
    rw [hfilter, List.map_append]
  -- generic in-degree decomposition in the composed graph
  have hdeg : ∀ k : String, inDeg (composeG g1 g2 nid otype) k
      = g1.edges.countP (fun e => renOut nid e.2 == k)
        + g2.edges.countP (fun e => renOut nid e.2 == k)
        + (if ("out" : String) = k then 1 else 0) := by
    intro k
    rw [inDeg, hedges, List.countP_append, List.countP_append,
      List.countP_map, List.countP_map]
    simp only [Function.comp_def, renEdge]
    by_cases hk : ("out" : String) = k <;>
      simp [List.countP_cons, hk]
  -- target neither "out" nor the fresh id: renaming does not affect counts
  have hcNe : ∀ (es : List (String × String)) (k : String), k ≠ "out" → k ≠ nid →
      es.countP (fun e => renOut nid e.2 == k) = es.countP (fun e => e.2 == k) := by
    intro es k hk hkn
    apply List.countP_congr
    intro e _
    rcases eq_or_ne e.2 "out" with h | h
    · simp only [renOut, h, if_pos rfl, beq_iff_eq]
      constructor
      · intro hx; exact absurd hx.symm hkn
      · intro hx; exact absurd hx.symm hk
    · simp [renOut, h]
  -- target the fresh id: these are exactly the edges into the old sinks
  have hcNid : ∀ g : RGraph, nid ∉ idsOf g →
      (∀ e ∈ g.edges, e.1 ∈ idsOf g ∧ e.2 ∈ idsOf g) →
      g.edges.countP (fun e => renOut nid e.2 == nid)
        = g.edges.countP (fun e => e.2 == "out") := by
    intro g hn hmem
    apply List.countP_congr
    intro e he
    rcases eq_or_ne e.2 "out" with h | h
    · simp [renOut, h]
    · have hne : e.2 ≠ nid := fun hh => hn (hh ▸ (hmem e he).2)
      simp [renOut, h, hne]
  -- target "out": no renamed operand edge hits the fresh sink
  have hcOut : ∀ es : List (String × String),
      es.countP (fun e => renOut nid e.2 == "out") = 0 := by
    intro es
    rw [List.countP_eq_zero]
    intro e _
    rcases eq_or_ne e.2 "out" with h | h
    · simp [renOut, h, hno]
    · simp [renOut, h]
  -- an id outside a graph receives none of that graph's edges
  have hcZero : ∀ (g : RGraph) (k : String), k ∉ idsOf g →
      (∀ e ∈ g.edges, e.1 ∈ idsOf g ∧ e.2 ∈ idsOf g) →
      g.edges.countP (fun e => e.2 == k) = 0 := by
    intro g k hk hmem
    rw [List.countP_eq_zero]
    intro e he
    simp only [beq_iff_eq]
    exact fun hh => hk (hh ▸ (hmem e he).2)
  have hdeg_nid : inDeg (composeG g1 g2 nid otype) nid = 2 := by
    rw [hdeg nid, hcNid g1 hn1 h1mem, hcNid g2 hn2 h2mem,
      if_neg (fun hh => hno hh.symm)]
    have e1 : g1.edges.countP (fun e => e.2 == "out") = 1 := h1outdeg
    have e2 : g2.edges.countP (fun e => e.2 == "out") = 1 := h2outdeg
    omega
  have hdeg_out : inDeg (composeG g1 g2 nid otype) "out" = 1 := by
    rw [hdeg "out", hcOut g1.edges, hcOut g2.edges, if_pos rfl]
  have hdeg_g1 : ∀ k, k ∈ idsOf g1 → k ≠ "out" → k ≠ nid →
      inDeg (composeG g1 g2 nid otype) k = inDeg g1 k := by
    intro k hk hko hkn
    rw [hdeg k, hcNe g1.edges k hko hkn, hcNe g2.edges k hko hkn,
      hcZero g2 k (fun hh => hko (hd k hk hh)) h2mem,
      if_neg (fun hh => hko hh.symm)]
    simp [inDeg]
  have hdeg_g2 : ∀ k, k ∈ idsOf g2 → k ∉ idsOf g1 → k ≠ nid →
      inDeg (composeG g1 g2 nid otype) k = inDeg g2 k := by
    intro k hk hk1 hkn
    have hko : k ≠ "out" := fun hh => hk1 (hh ▸ hout1)
    rw [hdeg k, hcNe g1.edges k hko hkn, hcNe g2.edges k hko hkn,
      hcZero g1 k hk1 h1mem, if_neg (fun hh => hko hh.symm)]
    simp [inDeg]
  -- the composed node list, explicitly
  have hnodes : (composeG g1 g2 nid otype).nodes
      = (g1.nodes.map (mergeNode g2) ++ g2.nodes.filter (keepNode g1)).map
          (fun kv => setOpNode nid otype (relNode nid kv))
        ++ [("out", outNode)] := by
    simp only [composeG, setOpAttrs, relabelOut, nxCompose, List.map_map]
    rfl
  refine ⟨?_, hdeg_nid, hdeg_out, ?_, ?_⟩
  · -- node count: |g1| + (|g2| - 1) + 1
    rw [hnodes]
    have hcnt : g2.nodes.countP (fun kv => !keepNode g1 kv) = 1 := by
      have hcongr : g2.nodes.countP (fun kv => !keepNode g1 kv)
          = g2.nodes.countP (fun kv => kv.1 == "out") := by
        apply List.countP_congr
        intro kv hkv
        rcases hl : List.lookup kv.1 g1.nodes with _ | v
        · simp only [keepNode, hl, Option.isNone_none, Bool.not_true,
            Bool.false_eq_true, false_iff, beq_iff_eq]
          intro hh
          rw [hh, h1out] at hl
          exact Option.noConfusion hl
        · simp only [keepNode, hl, Option.isNone_some, Bool.not_false,
            true_iff, beq_iff_eq]
          exact hd kv.1 (mem_idsOf_of_lookup_some (g := g1) hl)
            (List.mem_map_of_mem Prod.fst hkv)
      rw [hcongr]
      have hmapped : g2.nodes.countP (fun kv => kv.1 == "out")
          = (idsOf g2).countP (fun x => x == "out") := by
        rw [idsOf, List.countP_map]
        rfl
      rw [hmapped, ← List.count_eq_countP]
      exact List.count_eq_one_of_mem h2nodup hout2
    have hsplit : g2.nodes.length
        = g2.nodes.countP (keepNode g1)
          + g2.nodes.countP (fun kv => !keepNode g1 kv) := by
      have hbase := List.length_eq_countP_add_countP
        (p := fun kv : String × RNode => keepNode g1 kv) (l := g2.nodes)
      rw [hbase]
      congr 1
      apply List.countP_congr
      intro x _
      cases hx : keepNode g1 x <;> simp [hx]
    have hflen : (g2.nodes.filter (keepNode g1)).length
        = g2.nodes.length - 1 := by
      rw [← List.countP_eq_length_filter]
      omega
    have hpos : 1 ≤ g2.nodes.length := by
      rcases List.mem_map.mp hout2 with ⟨p, hp, _⟩
      have := List.length_pos_of_mem hp
      omega
    simp only [List.length_append, List.length_map, List.length_cons,
      List.length_nil, hflen]
    omega
  · -- the fresh sink is wired from the operation node
    rw [hedges]
    simp
  · -- every operation node of the result has in-degree 2
    intro kv hkv hop
    rw [hnodes] at hkv
    rcases List.mem_append.mp hkv with hmem | hsink
    · rcases List.mem_map.mp hmem with ⟨kv0, hkv0, rfl⟩
      have hk0nid : kv0.1 ≠ nid := by
        rcases List.mem_append.mp hkv0 with hg1m | hg2m
        · rcases List.mem_map.mp hg1m with ⟨kv1, hkv1, rfl⟩
          rw [mergeNode_fst]
          exact fun hh => hn1 (hh ▸ List.mem_map_of_mem Prod.fst hkv1)
        · exact fun hh =>
            hn2 (hh ▸ List.mem_map_of_mem Prod.fst (List.mem_filter.mp hg2m).1)
      rcases eq_or_ne kv0.1 "out" with hk0 | hk0
      · rw [setRel_out nid otype kv0 hk0]
        exact hdeg_nid
      · rw [setRel_ne nid otype kv0 hk0 hk0nid] at hop ⊢
        rcases List.mem_append.mp hkv0 with hg1m | hg2m
        · rcases List.mem_map.mp hg1m with ⟨kv1, hkv1, heq⟩
          rcases hl : List.lookup kv1.1 g2.nodes with _ | v
          · have hkv01 : kv0 = kv1 := by
              rw [← heq]
              unfold mergeNode
              rw [hl]
            subst hkv01
            rw [hdeg_g1 kv0.1 (List.mem_map_of_mem Prod.fst hkv1) hk0 hk0nid]
            exact h1op kv0 hkv1 hop
          · exfalso
            have hin2 : kv1.1 ∈ idsOf g2 := mem_idsOf_of_lookup_some (g := g2) hl
            have hin1 : kv1.1 ∈ idsOf g1 := List.mem_map_of_mem Prod.fst hkv1
            have hkeys : kv0.1 = kv1.1 := by rw [← heq, mergeNode_fst]
            exact hk0 (hkeys ▸ hd kv1.1 hin1 hin2)
        · have hkv2 := (List.mem_filter.mp hg2m).1
          have hkeep := (List.mem_filter.mp hg2m).2
          have hnotin1 : kv0.1 ∉ idsOf g1 := by
            intro hin
            have hsome := lookup_isSome_of_mem_ids (g := g1) hin
            simp only [keepNode] at hkeep
            rw [Option.isNone_iff_eq_none] at hkeep
            rw [hkeep] at hsome
            simp at hsome
          rw [hdeg_g2 kv0.1 (List.mem_map_of_mem Prod.fst hkv2) hnotin1 hk0nid]
          exact h2op kv0 hkv2 hop
    · have hkvq : kv = ("out", outNode) := by simpa using hsink
      rw [hkvq] at hop
      simp [outNode] at hop

/-- C5, witness for the amended theorem: two independently built
single-component models (distinct uuids) composed with a fresh operation id. -/
theorem c5_witness :
    GraphWF (fromComponentG "a1" "additive" "additiveconstant")
    ∧ GraphWF (fromComponentG "b1" "multiplicative" "absorber")
    ∧ DisjointIds (fromComponentG "a1" "additive" "additiveconstant")
        (fromComponentG "b1" "multiplicative" "absorber")
    ∧ "op1" ∉ idsOf (fromComponentG "a1" "additive" "additiveconstant")
    ∧ "op1" ∉ idsOf (fromComponentG "b1" "multiplicative" "absorber")
    ∧ ("op1" : String) ≠ "out"
    ∧ ((composeG (fromComponentG "a1" "additive" "additiveconstant")
          (fromComponentG "b1" "multiplicative" "absorber") "op1" "mul").nodes.length
        = (fromComponentG "a1" "additive" "additiveconstant").nodes.length
          + (fromComponentG "b1" "multiplicative" "absorber").nodes.length
      ∧ inDeg (composeG (fromComponentG "a1" "additive" "additiveconstant")
          (fromComponentG "b1" "multiplicative" "absorber") "op1" "mul") "op1" = 2
      ∧ inDeg (composeG (fromComponentG "a1" "additive" "additiveconstant")
          (fromComponentG "b1" "multiplicative" "absorber") "op1" "mul") "out" = 1
      ∧ ("op1", "out") ∈ (composeG (fromComponentG "a1" "additive" "additiveconstant")
          (fromComponentG "b1" "multiplicative" "absorber") "op1" "mul").edges
      ∧ (∀ kv ∈ (composeG (fromComponentG "a1" "additive" "additiveconstant")
            (fromComponentG "b1" "multiplicative" "absorber") "op1" "mul").nodes,
          kv.2.ntype = "operation" →
            inDeg (composeG (fromComponentG "a1" "additive" "additiveconstant")
              (fromComponentG "b1" "multiplicative" "absorber") "op1" "mul") kv.1 = 2)) :=
  ⟨by decide, by decide, by decide, by decide, by decide, by decide,
   c5_compose_disjoint (fromComponentG "a1" "additive" "additiveconstant")
     (fromComponentG "b1" "multiplicative" "absorber") "op1" "mul"
     (by decide) (by decide) (by decide) (by decide) (by decide) (by decide)⟩

/-- Decimal rendering of a natural number, most significant digit first —
the embedding of Python's f-string `f"{n}"`. -/
def natDec (n : ℕ) : String :=
  if n = 0 then "0" else String.mk (((Nat.digits 10 n).map Nat.digitChar).reverse)

/-- The namespace resolver's name format `f"{name}_{n}"`. -/
def render (kind : String) (n : ℕ) : String :=
  kind ++ "_" ++ natDec n

/-- Decimal digit characters are never an underscore. -/
theorem digitChar_ne_underscore : ∀ d : ℕ, d < 10 → Nat.digitChar d ≠ '_' := by
  decide

/-- `Nat.digitChar` is injective below the base 10. -/
theorem digitChar_inj :
    ∀ a : ℕ, a < 10 → ∀ b : ℕ, b < 10 → Nat.digitChar a = Nat.digitChar b → a = b := by
  decide

/-- A decimal rendering contains no underscore. -/
theorem natDec_no_underscore (n : ℕ) : '_' ∉ (natDec n).data := by
  unfold natDec
  split
  · decide
  · intro hmem
    have hmem2 : '_' ∈ (Nat.digits 10 n).map Nat.digitChar := by
      simpa [List.mem_reverse] using hmem
    rcases List.mem_map.mp hmem2 with ⟨d, hd, hchar⟩
    exact digitChar_ne_underscore d (Nat.digits_lt_base (by norm_num) hd) hchar

/-- Mapping `digitChar` over digit lists (all entries `< 10`) is injective. -/
theorem map_digitChar_inj : ∀ l1 l2 : List ℕ, (∀ d ∈ l1, d < 10) → (∀ d ∈ l2, d < 10) →
    l1.map Nat.digitChar = l2.map Nat.digitChar → l1 = l2 := by
  intro l1
  induction l1 with
  | nil =>
    intro l2 _ _ h
    cases l2 with
    | nil => rfl
    | cons b t2 => simp at h
  | cons a t ih =>
    intro l2 h1 h2 h
    cases l2 with
    | nil => simp at h
    | cons b t2 =>
      simp only [List.map_cons, List.cons.injEq] at h
      have hab : a = b :=
        digitChar_inj a (h1 a (List.mem_cons_self a t)) b
          (h2 b (List.mem_cons_self b t2)) h.1
      have ht : t = t2 :=
        ih t2 (fun d hd => h1 d (List.mem_cons_of_mem a hd))
          (fun d hd => h2 d (List.mem_cons_of_mem b hd)) h.2
      rw [hab, ht]

/-- `natDec` is injective on positive numbers. -/
theorem natDec_inj {m n : ℕ} (hm : 0 < m) (hn : 0 < n)
    (h : natDec m = natDec n) : m = n := by
  unfold natDec at h
  rw [if_neg (Nat.pos_iff_ne_zero.mp hm), if_neg (Nat.pos_iff_ne_zero.mp hn)] at h
  have hl : ((Nat.digits 10 m).map Nat.digitChar).reverse
      = ((Nat.digits 10 n).map Nat.digitChar).reverse := congrArg String.data h
  have hl2 := List.reverse_injective hl
  have hdig : Nat.digits 10 m = Nat.digits 10 n :=
    map_digitChar_inj _ _ (fun d hd => Nat.digits_lt_base (by norm_num) hd)
      (fun d hd => Nat.digits_lt_base (by norm_num) hd) hl2
  have := congrArg (Nat.ofDigits 10) hdig
  rwa [Nat.ofDigits_digits, Nat.ofDigits_digits] at this

/-- Splitting a character list at its last underscore is unique when the two
suffixes contain none. -/
theorem underscore_split : ∀ (a : List Char) (b c d : List Char), '_' ∉ b → '_' ∉ d →
    a ++ '_' :: b = c ++ '_' :: d → a = c ∧ b = d := by
  intro a
  induction a with
  | nil =>
    intro b c d hb hd h
    cases c with
    | nil =>
      simp only [List.nil_append, List.cons.injEq, true_and] at h
      exact ⟨rfl, h⟩
    | cons x cs =>
      simp only [List.nil_append, List.cons_append, List.cons.injEq] at h
      exact absurd (h.2 ▸ List.mem_append_right cs (List.mem_cons_self '_' d)) hb
  | cons x as ih =>
    intro b c d hb hd h
    cases c with
    | nil =>
      simp only [List.cons_append, List.nil_append, List.cons.injEq] at h
      exact absurd (h.2.symm ▸ List.mem_append_right as (List.mem_cons_self '_' b)) hd
    | cons y cs =>
      simp only [List.cons_append, List.cons.injEq] at h
      rcases ih b cs d hb hd h.2 with ⟨hac, hbd⟩
      exact ⟨by rw [h.1, hac], hbd⟩

/-- `render` is injective for positive counters: the suffix after the last
underscore is a pure digit string, so kind and counter are both recovered. -/
theorem render_inj {k1 k2 : String} {n1 n2 : ℕ} (h1 : 0 < n1) (h2 : 0 < n2)
    (h : render k1 n1 = render k2 n2) : k1 = k2 ∧ n1 = n2 := by
  unfold render at h
  have hdata : k1.data ++ '_' :: (natDec n1).data
      = k2.data ++ '_' :: (natDec n2).data := by
    have := congrArg String.data h
    simpa [String.data_append] using this
  rcases underscore_split _ _ _ _ (natDec_no_underscore n1)
    (natDec_no_underscore n2) hdata with ⟨hk, hn⟩
  refine ⟨String.ext hk, natDec_inj h1 h2 (String.ext hn)⟩

/-- The name assignment described by the spec: visit the component kinds in
topological order and attach the 1-based occurrence count of each kind among
the kinds seen so far (`seen` carries the kinds of an already-visited
prefix). -/
def specNames : List String → List String → List String
  | _, [] => []
  | seen, k :: ks => render k (seen.count k + 1) :: specNames (seen ++ [k]) ks

/-- Every name produced by `specNames seen ks` is a `render k n` with `k` a
visited kind and `n` beyond the count of `k` in `seen`. -/
theorem mem_specNames : ∀ (ks seen : List String) (x : String),
    x ∈ specNames seen ks →
    ∃ k n, k ∈ ks ∧ x = render k n ∧ seen.count k + 1 ≤ n := by
  intro ks
  induction ks with
  | nil => intro seen x hx; simp [specNames] at hx
  | cons k rest ih =>
    intro seen x hx
    rcases List.mem_cons.mp hx with hx | hx
    · exact ⟨k, seen.count k + 1, List.mem_cons_self k rest, hx, le_refl _⟩
    · rcases ih (seen ++ [k]) x hx with ⟨k', n, hk', hxr, hle⟩
      refine ⟨k', n, List.mem_cons_of_mem k hk', hxr, ?_⟩
      have hmono : seen.count k' ≤ (seen ++ [k]).count k' := by
        rw [List.count_append]
        omega
      omega

/-- The spec name assignment yields pairwise distinct names. -/
theorem specNames_nodup : ∀ (ks seen : List String), (specNames seen ks).Nodup := by
  intro ks
  induction ks with
  | nil => intro seen; simp [specNames]
  | cons k rest ih =>
    intro seen
    rw [specNames, List.nodup_cons]
    refine ⟨?_, ih (seen ++ [k])⟩
    intro hmem
    rcases mem_specNames rest (seen ++ [k]) _ hmem with ⟨k', n, _, heq, hle⟩
    rcases render_inj (Nat.succ_pos _) (by omega) heq with ⟨hkk, hnn⟩
    rw [← hkk, List.count_append] at hle
    simp at hle
    omega

/-- Readiness test of Kahn's algorithm as `networkx.topological_generations`
performs it: a node is ready when each of its inbound edges comes from an
already-emitted node. -/
def topoReady (g : RGraph) (acc : List String) (kv : String × RNode) : Bool :=
  g.edges.all (fun e => e.2 != kv.1 || acc.contains e.1)

/-- Fueled Kahn iteration: emit every ready remaining node (in insertion
order — one generation), repeat.  `networkx.topological_sort` yields exactly
the concatenation of the generations. -/
def topoGo (g : RGraph) : ℕ → List String → List (String × RNode) → List String
  | 0, acc, _ => acc
  | fuel + 1, acc, rem =>
    let ready := rem.filter (topoReady g acc)
    if ready.isEmpty then acc
    else topoGo g fuel (acc ++ ready.map Prod.fst)
      (rem.filter (fun kv => !(topoReady g acc kv)))

/-- `nx.dag.topological_sort` over a builder graph: Kahn generations with
enough fuel to exhaust all nodes of an acyclic graph. -/
def topoOrder (g : RGraph) : List String :=
  topoGo g g.nodes.length [] g.nodes

/-- With duplicate-free input keys, the emitted topological order is
duplicate-free. -/
theorem topoGo_nodup (g : RGraph) : ∀ (fuel : ℕ) (acc : List String)
    (rem : List (String × RNode)),
    (acc ++ rem.map Prod.fst).Nodup → (topoGo g fuel acc rem).Nodup := by
  intro fuel
  induction fuel with
  | zero =>
    intro acc rem h
    exact (List.sublist_append_left acc (rem.map Prod.fst)).nodup h
  | succ fuel ih =>
    intro acc rem h
    rw [topoGo]
    by_cases hre : (rem.filter (topoReady g acc)).isEmpty
    · simp only [hre, if_true]
      exact (List.sublist_append_left acc (rem.map Prod.fst)).nodup h
    · simp only [hre, if_false]
      apply ih
      have hperm : List.Perm
          ((rem.filter (topoReady g acc)).map Prod.fst
            ++ (rem.filter (fun kv => !(topoReady g acc kv))).map Prod.fst)
          (rem.map Prod.fst) := by
        rw [← List.map_append]
        exact (List.filter_append_perm _ rem).map Prod.fst
      have hperm2 : List.Perm
          ((acc ++ (rem.filter (topoReady g acc)).map Prod.fst)
            ++ (rem.filter (fun kv => !(topoReady g acc kv))).map Prod.fst)
          (acc ++ rem.map Prod.fst) := by
        rw [List.append_assoc]
        exact hperm.append_left acc
      exact hperm2.nodup_iff.mpr h

/-- The emitted topological order is duplicate-free for duplicate-free node
keys. -/
theorem topoOrder_nodup (g : RGraph) (h : (idsOf g).Nodup) :
    (topoOrder g).Nodup := by
  apply topoGo_nodup
  simpa [idsOf] using h

/-- The kind a component node contributes to the namespace walk: its `name`
attribute when the node exists and is of component type. -/
def kindOf (g : RGraph) (k : String) : Option String :=
  (List.lookup k g.nodes).bind (fun nd =>
    if nd.ntype = "component" then some (nd.name.getD "") else none)

/-- The component node ids among a visit order. -/
def compIds (g : RGraph) (ks : List String) : List String :=
  ks.filter (fun k => (kindOf g k).isSome)

/-- The component kinds along a visit order. -/
def compKinds (g : RGraph) (ks : List String) : List String :=
  ks.filterMap (kindOf g)

/-- `nx.set_node_attributes(new_graph, {node_id: new_name}, "name")`:
overwrite one node's `name` attribute. -/
def setName (g : RGraph) (k : String) (s : String) : RGraph :=
  RGraph.mk
    (g.nodes.map (fun kv =>
      if kv.1 = k then (kv.1, RNode.mk kv.2.ntype kv.2.ctype (some s) kv.2.otype)
      else kv))
    g.edges

/-- One iteration of the loop in `SpectralModel.build_namespace`: for a
component node, append its kind to the namespace list, count its occurrences
there (1-based), and rename the node to `f"{kind}_{count}"`; any other node
leaves the state untouched. -/
def nsStep (st : RGraph × List String) (k : String) : RGraph × List String :=
  ((List.lookup k st.1.nodes).map (fun nd =>
    if nd.ntype = "component" then
      let kind := nd.name.getD ""
      let ns := st.2 ++ [kind]
      (setName st.1 k (render kind (ns.count kind)), ns)
    else st)).getD st

/-- `SpectralModel.build_namespace`: fold the renaming step over the
topological order of the raw graph, starting from a copy of it and an empty
namespace list. -/
def buildNamespace (g : RGraph) : RGraph :=
  ((topoOrder g).foldl nsStep (g, [])).1

/-- The display name of node `k` in graph `g` (`""` when absent). -/
def nameInGraph (g : RGraph) (k : String) : String :=
  ((List.lookup k g.nodes).map (fun nd => nd.name.getD "")).getD ""

/-- The resolved display name of node `k` of model graph `g`. -/
def finalName (g : RGraph) (k : String) : String :=
  nameInGraph (buildNamespace g) k

/-- Cons lookup at a different key skips the head. -/
theorem lookup_cons_ne (a : String) (b : RNode) (tl : List (String × RNode))
    (j : String) (h : j ≠ a) :
    List.lookup j ((a, b) :: tl) = List.lookup j tl := by
  rw [List.lookup_cons, show (j == a) = false from beq_eq_false_iff_ne.mpr h]

/-- Lookup in a name-overwritten association list: only key `k` changes. -/
theorem lookup_setList (l : List (String × RNode)) (k s j : String) :
    List.lookup j (l.map (fun kv =>
      if kv.1 = k then (kv.1, RNode.mk kv.2.ntype kv.2.ctype (some s) kv.2.otype)
      else kv))
      = if j = k
        then (List.lookup j l).map
            (fun nd => RNode.mk nd.ntype nd.ctype (some s) nd.otype)
        else List.lookup j l := by
  induction l with
  | nil => by_cases hj : j = k <;> simp [hj]
  | cons hd tl ih =>
    obtain ⟨a, b⟩ := hd
    rw [List.map_cons]
    by_cases hk : a = k
    · rw [if_pos hk]
      by_cases hj : j = a
      · subst hj
        subst hk
        rw [List.lookup_cons_self, List.lookup_cons_self, if_pos rfl]
        rfl
      · rw [lookup_cons_ne _ _ _ _ hj, lookup_cons_ne _ _ _ _ hj, ih]
    · rw [if_neg hk]
      by_cases hj : j = a
      · subst hj
        rw [List.lookup_cons_self, List.lookup_cons_self, if_neg hk]
      · rw [lookup_cons_ne _ _ _ _ hj, lookup_cons_ne _ _ _ _ hj, ih]

/-- `setName` seen through lookups. -/
theorem setName_lookup (g : RGraph) (k s j : String) :
    List.lookup j (setName g k s).nodes
      = if j = k
        then (List.lookup j g.nodes).map
            (fun nd => RNode.mk nd.ntype nd.ctype (some s) nd.otype)
        else List.lookup j g.nodes :=
  lookup_setList g.nodes k s j

/-- `setName` keeps the node keys. -/
theorem setName_ids (g : RGraph) (k s : String) :
    idsOf (setName g k s) = idsOf g := by
  simp only [setName, idsOf, List.map_map]
  apply List.map_congr_left
  intro kv _
  by_cases h : kv.1 = k <;> simp [Function.comp, h]

/-- A successful lookup produces a member of the association list. -/
theorem mem_of_lookup_some :
    ∀ {l : List (String × RNode)} {k : String} {v : RNode},
    List.lookup k l = some v → (k, v) ∈ l := by
  intro l
  induction l with
  | nil => intro k v h; simp at h
  | cons hd tl ih =>
    intro k v h
    obtain ⟨a, b⟩ := hd
    by_cases hk : k = a
    · subst hk
      rw [List.lookup_cons_self] at h
      have hv : b = v := by injection h
      rw [← hv]
      exact List.mem_cons_self _ _
    · rw [lookup_cons_ne _ _ _ _ hk] at h
      exact List.mem_cons_of_mem _ (ih h)

/-- With duplicate-free keys, membership determines the lookup. -/
theorem lookup_of_mem_nodup :
    ∀ {l : List (String × RNode)}, (l.map Prod.fst).Nodup →
    ∀ {kv : String × RNode}, kv ∈ l → List.lookup kv.1 l = some kv.2 := by
  intro l
  induction l with
  | nil => intro _ kv h; simp at h
  | cons hd tl ih =>
    intro hnd kv h
    rw [List.map_cons, List.nodup_cons] at hnd
    rcases List.mem_cons.mp h with rfl | htl
    · obtain ⟨a, b⟩ := kv
      exact List.lookup_cons_self
    · have hne : kv.1 ≠ hd.1 := by
        intro hh
        exact hnd.1 (hh ▸ List.mem_map_of_mem Prod.fst htl)
      obtain ⟨a, b⟩ := hd
      rw [lookup_cons_ne _ _ _ _ hne]
      exact ih hnd.2 htl

/-- Pointwise-equal `filterMap` functions produce the same list. -/
theorem filterMap_congr_mem {α β : Type} :
    ∀ (l : List α) (f f2 : α → Option β), (∀ x ∈ l, f x = f2 x) →
    l.filterMap f = l.filterMap f2 := by
  intro l
  induction l with
  | nil => intro f f2 _; rfl
  | cons hd tl ih =>
    intro f f2 h
    rw [List.filterMap_cons, List.filterMap_cons,
      h hd (List.mem_cons_self hd tl),
      ih f f2 (fun x hx => h x (List.mem_cons_of_mem hd hx))]

/-- Master invariant of the `build_namespace` fold over a duplicate-free
visit order `ks`: nodes outside `ks` are untouched, node keys are preserved,
visited nodes keep their type, and the component nodes along `ks` end up
carrying exactly the spec's `kind_count` names. -/
theorem nsRun : ∀ (ks : List String) (g : RGraph) (seen : List String),
    ks.Nodup →
    (∀ j, j ∉ ks →
      List.lookup j ((ks.foldl nsStep (g, seen)).1).nodes = List.lookup j g.nodes)
    ∧ idsOf ((ks.foldl nsStep (g, seen)).1) = idsOf g
    ∧ (∀ j ∈ ks, ∀ nd : RNode, List.lookup j g.nodes = some nd →
        ∃ nd' : RNode,
          List.lookup j ((ks.foldl nsStep (g, seen)).1).nodes = some nd'
          ∧ nd'.ntype = nd.ntype)
    ∧ ((compIds g ks).map (fun k => nameInGraph ((ks.foldl nsStep (g, seen)).1) k)
        = specNames seen (compKinds g ks)) := by
  intro ks
  induction ks with
  | nil =>
    intro g seen _
    exact ⟨fun j _ => rfl, rfl, by simp, by simp [compIds, compKinds, specNames]⟩
  | cons k rest ih =>
    intro g seen hnodup
    have hkrest : k ∉ rest := (List.nodup_cons.mp hnodup).1
    have hrest : rest.Nodup := (List.nodup_cons.mp hnodup).2
    rw [List.foldl_cons]
    rcases hko : kindOf g k with _ | kind
    · -- not a component node (or absent): the step is the identity
      have hstep : nsStep (g, seen) k = (g, seen) := by
        unfold kindOf at hko
        rcases hl : List.lookup k g.nodes with _ | nd
        · simp [nsStep, hl]
        · rw [hl] at hko
          by_cases hnt : nd.ntype = "component"
          · simp [hnt] at hko
          · simp [nsStep, hl, hnt]
      rw [hstep]
      obtain ⟨ihB, ihD, ihE, ihC⟩ := ih g seen hrest
      refine ⟨?_, ihD, ?_, ?_⟩
      · intro j hj
        exact ihB j (fun hh => hj (List.mem_cons_of_mem k hh))
      · intro j hj nd hnd
        rcases List.mem_cons.mp hj with rfl | hj2
        · exact ⟨nd, by rw [ihB j hkrest, hnd], rfl⟩
        · exact ihE j hj2 nd hnd
      · have h1 : compIds g (k :: rest) = compIds g rest := by
          simp [compIds, List.filter_cons, hko]
        have h2 : compKinds g (k :: rest) = compKinds g rest := by
          simp [compKinds, List.filterMap_cons, hko]
        rw [h1, h2]
        exact ihC
    · -- a component node of kind `kind`
      have hnode : ∃ nd : RNode, List.lookup k g.nodes = some nd
          ∧ nd.ntype = "component" ∧ nd.name.getD "" = kind := by
        unfold kindOf at hko
        rcases hl : List.lookup k g.nodes with _ | nd
        · rw [hl] at hko
          simp at hko
        · rw [hl] at hko
          by_cases hnt : nd.ntype = "component"
          · rw [Option.some_bind, if_pos hnt] at hko
            refine ⟨nd, rfl, hnt, ?_⟩
            injection hko
          · simp [hnt] at hko
      obtain ⟨nd, hl, hnt, hkind⟩ := hnode
      have hstep : nsStep (g, seen) k
          = (setName g k (render kind (seen.count kind + 1)), seen ++ [kind]) := by
        have hcount : (seen ++ [kind]).count kind = seen.count kind + 1 := by
          simp [List.count_append]
        simp [nsStep, hl, hnt, hkind, hcount]
      rw [hstep]
      obtain ⟨ihB, ihD, ihE, ihC⟩ :=
        ih (setName g k (render kind (seen.count kind + 1))) (seen ++ [kind]) hrest
      have hlook_ne : ∀ j, j ≠ k →
          List.lookup j (setName g k (render kind (seen.count kind + 1))).nodes
            = List.lookup j g.nodes := by
        intro j hj
        rw [setName_lookup, if_neg hj]
      have hlook_k : List.lookup k (setName g k (render kind (seen.count kind + 1))).nodes
          = some (RNode.mk nd.ntype nd.ctype
              (some (render kind (seen.count kind + 1))) nd.otype) := by
        rw [setName_lookup, if_pos rfl, hl]
        rfl
      have hkind_ne : ∀ j, j ≠ k →
          kindOf (setName g k (render kind (seen.count kind + 1))) j = kindOf g j := by
        intro j hj
        unfold kindOf
        rw [hlook_ne j hj]
      refine ⟨?_, ?_, ?_, ?_⟩
      · intro j hj
        have hjk : j ≠ k := fun hh => hj (hh ▸ List.mem_cons_self k rest)
        have hjrest : j ∉ rest := fun hh => hj (List.mem_cons_of_mem k hh)
        rw [ihB j hjrest, hlook_ne j hjk]
      · rw [ihD, setName_ids]
      · intro j hj nd0 hnd0
        rcases List.mem_cons.mp hj with rfl | hj2
        · have hnd0nd : nd = nd0 := by
            rw [hl] at hnd0
            injection hnd0
          refine ⟨RNode.mk nd.ntype nd.ctype
              (some (render kind (seen.count kind + 1))) nd.otype, ?_, by rw [← hnd0nd]⟩
          rw [ihB j hkrest, hlook_k]
        · have hjk : j ≠ k := fun hh => hkrest (hh ▸ hj2)
          exact ihE j hj2 nd0 (by rw [hlook_ne j hjk]; exact hnd0)
      · have hcompIds : compIds g (k :: rest) = k :: compIds g rest := by
          simp [compIds, List.filter_cons, hko]
        have hcompKinds : compKinds g (k :: rest) = kind :: compKinds g rest := by
          simp [compKinds, List.filterMap_cons, hko]
        rw [hcompIds, hcompKinds, List.map_cons, specNames]
        have hids2 : compIds g rest
            = compIds (setName g k (render kind (seen.count kind + 1))) rest := by
          unfold compIds
          apply List.filter_congr
          intro j hj
          rw [hkind_ne j (fun hh => hkrest (hh ▸ hj))]
        have hkinds2 : compKinds g rest
            = compKinds (setName g k (render kind (seen.count kind + 1))) rest := by
          unfold compKinds
          apply filterMap_congr_mem
          intro j hj
          rw [hkind_ne j (fun hh => hkrest (hh ▸ hj))]
        have hhead : nameInGraph
            ((rest.foldl nsStep
              (setName g k (render kind (seen.count kind + 1)), seen ++ [kind])).1) k
            = render kind (seen.count kind + 1) := by
          unfold nameInGraph
          rw [ihB k hkrest, hlook_k]
          rfl
        rw [hhead, hids2, hkinds2, ihC]

/-- C6: the namespace resolver assigns every component node the display name
`kind_k` where `k` is the 1-based occurrence count of that kind among
component nodes in the topological visit order (first conjunct: the resolver
refines the spec's naming rule), the assigned names are pairwise distinct
along that order (second conjunct), and any two component nodes of the
resolved graph carrying equal display names are the same node (third
conjunct).  Re-running the resolver is deterministic by construction: it is a
pure function that always restarts from the raw graph's kinds, so a second
run reproduces identical names. -/
theorem c6_namespace_resolver (g : RGraph)
    (hnodup : (idsOf g).Nodup)
    (hcover : ∀ kv ∈ g.nodes, kv.2.ntype = "component" → kv.1 ∈ topoOrder g) :
    ((compIds g (topoOrder g)).map (finalName g)
        = specNames [] (compKinds g (topoOrder g)))
    ∧ ((compIds g (topoOrder g)).map (finalName g)).Nodup
    ∧ (∀ kv1 ∈ (buildNamespace g).nodes, ∀ kv2 ∈ (buildNamespace g).nodes,
        kv1.2.ntype = "component" → kv2.2.ntype = "component" →
        kv1.2.name = kv2.2.name → kv1.1 = kv2.1) := by
  have hks : (topoOrder g).Nodup := topoOrder_nodup g hnodup
  obtain ⟨hB, hD, hE, hC⟩ := nsRun (topoOrder g) g [] hks
  have hDbn : idsOf (buildNamespace g) = idsOf g := hD
  have hCfin : (compIds g (topoOrder g)).map (finalName g)
      = specNames [] (compKinds g (topoOrder g)) := hC
  refine ⟨hCfin, by rw [hCfin]; exact specNames_nodup _ _, ?_⟩
  intro kv1 h1 kv2 h2 hc1 hc2 hname
  have key : ∀ kv ∈ (buildNamespace g).nodes, kv.2.ntype = "component" →
      kv.1 ∈ compIds g (topoOrder g) ∧ finalName g kv.1 = kv.2.name.getD "" := by
    intro kv hkv hcomp
    have houtnodup : (idsOf (buildNamespace g)).Nodup := by
      rw [hDbn]
      exact hnodup
    have hlookout : List.lookup kv.1 (buildNamespace g).nodes = some kv.2 :=
      lookup_of_mem_nodup houtnodup hkv
    have hin : kv.1 ∈ topoOrder g := by
      by_cases hks1 : kv.1 ∈ topoOrder g
      · exact hks1
      · have huntouched : List.lookup kv.1 (buildNamespace g).nodes
            = List.lookup kv.1 g.nodes := hB kv.1 hks1
        have horig : List.lookup kv.1 g.nodes = some kv.2 := by
          rw [← huntouched]
          exact hlookout
        exact hcover (kv.1, kv.2) (mem_of_lookup_some horig) hcomp
    have hgsome : ∃ nd : RNode, List.lookup kv.1 g.nodes = some nd
        ∧ nd.ntype = "component" := by
      have hid : kv.1 ∈ idsOf g := by
        rw [← hDbn]
        exact List.mem_map_of_mem Prod.fst hkv
      have hsome := lookup_isSome_of_mem_ids (g := g) hid
      rcases hx : List.lookup kv.1 g.nodes with _ | nd
      · rw [hx] at hsome
        simp at hsome
      · obtain ⟨nd', hnd', hntq⟩ := hE kv.1 hin nd hx
        have hnd'2 : List.lookup kv.1 (buildNamespace g).nodes = some nd' := hnd'
        rw [hlookout] at hnd'2
        have : kv.2 = nd' := by injection hnd'2
        exact ⟨nd, rfl, by rw [← hntq, ← this]; exact hcomp⟩
    obtain ⟨nd, hndl, hndc⟩ := hgsome
    constructor
    · unfold compIds
      apply List.mem_filter.mpr
      refine ⟨hin, ?_⟩
      unfold kindOf
      rw [hndl]
      simp [hndc]
    · unfold finalName nameInGraph
      rw [hlookout]
      rfl
  obtain ⟨hin1, hn1⟩ := key kv1 h1 hc1
  obtain ⟨hin2, hn2⟩ := key kv2 h2 hc2
  have hfeq : finalName g kv1.1 = finalName g kv2.1 := by
    rw [hn1, hn2, hname]
  have hnodupmap : ((compIds g (topoOrder g)).map (finalName g)).Nodup := by
    rw [hCfin]
    exact specNames_nodup _ _
  exact List.inj_on_of_nodup_map hnodupmap hin1 hin2 hfeq

/-- Witness graph for the namespace claims: two independently built
`powerlaw` components composed additively, so the resolver must produce the
suffixes `_1` and `_2`. -/
def nsWitnessG : RGraph :=
  composeG (fromComponentG "a1" "additive" "powerlaw")
    (fromComponentG "b1" "additive" "powerlaw") "op1" "add"

/-- C6, witness: the composed two-`powerlaw` graph satisfies the resolver
theorem's hypotheses and hence its naming and distinctness conclusions. -/
theorem c6_witness :
    (idsOf nsWitnessG).Nodup
    ∧ (∀ kv ∈ nsWitnessG.nodes, kv.2.ntype = "component" →
        kv.1 ∈ topoOrder nsWitnessG)
    ∧ (((compIds nsWitnessG (topoOrder nsWitnessG)).map (finalName nsWitnessG)
          = specNames [] (compKinds nsWitnessG (topoOrder nsWitnessG)))
      ∧ ((compIds nsWitnessG (topoOrder nsWitnessG)).map
          (finalName nsWitnessG)).Nodup
      ∧ (∀ kv1 ∈ (buildNamespace nsWitnessG).nodes,
          ∀ kv2 ∈ (buildNamespace nsWitnessG).nodes,
          kv1.2.ntype = "component" → kv2.2.ntype = "component" →
          kv1.2.name = kv2.2.name → kv1.1 = kv2.1)) :=
  ⟨by decide, by decide, c6_namespace_resolver nsWitnessG (by decide) (by decide)⟩

/- Graph-level embedding of `SpectralModel.flux`, needed because operand
models can share node ids (shared construction history): then `nx.compose`
merges the shared subgraph and the evaluator's behavior differs from the
disjoint (tree) case.  Component runtime behavior is supplied by an
environment `env : String → Comp` standing for
`runtime_modules[node_id] = node["component"](name=..., **node["kwargs"])`:
the code keys runtime modules by node id, and a shared node id denotes the
same component class with the same bound kwargs in every graph containing
it. -/

/-- `list(graph.in_edges(k))`: inbound edges of `k` in insertion order. -/
def inEdgesG (g : RGraph) (k : String) : List (String × String) :=
  g.edges.filter (fun e => e.2 == k)

/-- `list(graph.successors(k))` via the edge list, in insertion order. -/
def succsG (g : RGraph) (k : String) : List String :=
  (g.edges.filter (fun e => e.1 == k)).map Prod.snd

/-- The combining `function` attribute an operation node carries:
`lambda x, y: x + y` for `add`, `lambda x, y: x * y` for `mul`, elementwise
(the junk value for other tags is unreachable on builder graphs). -/
def opCombine (otype : Option String) (f1 f2 : ℚ → ℚ) : ℚ → ℚ :=
  if otype = some "add" then fun e => f1 e + f2 e
  else if otype = some "mul" then fun e => f1 e * f2 e
  else fun _ => 0

/-- One iteration of the continuum loop of `SpectralModel.flux` at node `k`:
a component node contributes `continuum(energies)` (as an elementwise
function), an operation node combines its first two inbound sources'
continua; other nodes contribute nothing.  The `getD` defaults are
unreachable on builder graphs (where the code's `continuum[...]` and
`in_edges[...]` accesses always succeed). -/
def contStep (g : RGraph) (env : String → Comp)
    (acc : List (String × (ℚ → ℚ))) (k : String) : List (String × (ℚ → ℚ)) :=
  ((List.lookup k g.nodes).map (fun nd =>
    if nd.ntype = "component" then acc ++ [(k, (env k).continuum)]
    else if nd.ntype = "operation" then
      acc ++ [(k, opCombine nd.otype
        ((List.lookup (((inEdgesG g k).map Prod.fst).getD 0 "") acc).getD (fun _ => 0))
        ((List.lookup (((inEdgesG g k).map Prod.fst).getD 1 "") acc).getD (fun _ => 0)))]
    else acc)).getD acc

/-- The `continuum` dict after the topological continuum loop. -/
def contDict (g : RGraph) (env : String → Comp) : List (String × (ℚ → ℚ)) :=
  (topoOrder g).foldl (contStep g env) []

/-- `continuum[list(graph.in_edges("out"))[0][0]]`: the model's continuum
curve, read off at the sink's unique predecessor. -/
def topContG (g : RGraph) (env : String → Comp) : ℚ → ℚ :=
  (List.lookup (((inEdgesG g "out").map Prod.fst).getD 0 "") (contDict g env)).getD
    (fun _ => 0)

/-- Per-bin integrated continuum of the graph evaluator — the same knot
pairing and log-energy trapezoid as `continuumFlux`, over the graph's
continuum curve. -/
def continuumFluxG (log : ℚ → ℚ) (energyFlux : Bool) (g : RGraph)
    (env : String → Comp) (n : ℕ) (eLow eHigh : ℕ → ℚ) (i : ℕ) : ℚ :=
  let flux1D := fun j => topContG g env (knots n eLow eHigh j)
  if energyFlux then
    trapezoid2 (flux1D i * (eLow i) ^ 2) (flux1D (i + 1) * (eHigh i) ^ 2)
      (log (eLow i)) (log (eHigh i))
  else
    trapezoid2 (flux1D i * eLow i) (flux1D (i + 1) * eHigh i)
      (log (eLow i)) (log (eHigh i))

/-- The `root_nodes` list of `SpectralModel.flux`: in-degree-0 nodes with
`component_type == "additive"`, in node insertion order.  In a merged graph a
shared additive root appears only once. -/
def rootsG (g : RGraph) : List String :=
  (g.nodes.filter (fun kv => inDeg g kv.1 == 0 && kv.2.ctype == some "additive")).map
    Prod.fst

/-- One round-per-fuel breadth-first search for
`nx.shortest_path(graph, source, target)`: frontier paths are stored
endpoint-first; each round either finds the target among the endpoints or
expands every frontier path by its unvisited successors, so a shortest path
is found first (the builder graphs used below have a unique shortest path,
so the networkx tie-break is immaterial). -/
def bfsRound (g : RGraph) (dst : String) :
    ℕ → List String → List (List String) → Option (List String)
  | 0, _, _ => none
  | fuel + 1, visited, frontier =>
    match frontier.find? (fun p => p.head? == some dst) with
    | some p => some p.reverse
    | none =>
      let expand := frontier.flatMap (fun p =>
        match p.head? with
        | some cur => (succsG g cur).filterMap
            (fun s => if s ∈ visited then none else some (s :: p))
        | none => [])
      bfsRound g dst fuel (visited ++ expand.filterMap List.head?) expand

/-- `nx.shortest_path(graph, source=src, target="out")` (`none` when no path
exists, where networkx would raise). -/
def nxShortestPath (g : RGraph) (src dst : String) : Option (List String) :=
  bfsRound g dst (g.nodes.length + 1) [src] [[src]]

/-- Graph-level `find_multiplicative_components`: on a `mul`-typed operation
node, each predecessor contributes itself if it is a multiplicative
component and its own recursive result if it is a further `mul` operation
node; anything else contributes nothing.  Fuel bounds the recursion depth
(at most the node count on the acyclic builder graphs). -/
def findMultG (g : RGraph) : ℕ → String → List String
  | 0, _ => []
  | fuel + 1, k =>
    ((List.lookup k g.nodes).map (fun nd =>
      if nd.otype = some "mul" then
        ((inEdgesG g k).map Prod.fst).flatMap (fun p =>
          ((List.lookup p g.nodes).map (fun pn =>
            if pn.ctype = some "multiplicative" then [p]
            else if pn.otype = some "mul" then findMultG g fuel p
            else [])).getD [])
      else [])).getD []

/-- The multiplicative nodes collected for one root: walk
`nx.shortest_path(root, "out")` in reverse and extend with
`find_multiplicative_components` at every node of the path. -/
def collectG (g : RGraph) (r : String) : List String :=
  (((nxShortestPath g r "out").getD []).reverse).flatMap (findMultG g g.nodes.length)

/-- Per-bin fine-structure flux of the graph evaluator: for each additive
root, `emission_lines(e_low, e_high)` scaled by every collected
multiplicative node's continuum at the mean energy; in energy mode the
contribution passes through the two-row log-energy trapezoid. -/
def fineFluxG (log : ℚ → ℚ) (energyFlux : Bool) (g : RGraph)
    (env : String → Comp) (eLow eHigh : ℕ → ℚ) (i : ℕ) : ℚ :=
  ((rootsG g).map (fun r =>
    let lm := (env r).lines (eLow i) (eHigh i)
    let ff := (collectG g r).foldl (fun acc m => acc * (env m).continuum lm.2) lm.1
    if energyFlux then
      trapezoid2 (ff * eLow i) (ff * eHigh i) (log (eLow i)) (log (eHigh i))
    else ff)).sum

/-- `SpectralModel.flux` on a node-id graph: integrated continuum plus
fine-structure contributions, per bin. -/
def fluxG (log : ℚ → ℚ) (energyFlux : Bool) (g : RGraph) (env : String → Comp)
    (n : ℕ) (eLow eHigh : ℕ → ℚ) (i : ℕ) : ℚ :=
  continuumFluxG log energyFlux g env n eLow eHigh i
    + fineFluxG log energyFlux g env eLow eHigh i

/-- `A = Gauss()`, as a two-node builder graph with node id `"ga"`. -/
def gA : RGraph := fromComponentG "ga" "additive" "gauss"

/-- `B = AdditiveConstant()`, with node id `"pb"`. -/
def gB : RGraph := fromComponentG "pb" "additive" "additiveconstant"

/-- `C = A + B`: the fresh-operand composition, operation node `"op1"`. -/
def gC : RGraph := composeG gA gB "op1" "add"

/-- `D = C + A`: the second operand shares node id `"ga"` with the first —
`nx.compose` merges the shared component node, so `"ga"` feeds both
operation nodes while appearing once. -/
def gD : RGraph := composeG gC gA "op2" "add"

/-- Runtime modules keyed by node id: `"ga"` is the Gauss-shaped line
component, every other component id the unit additive constant. -/
def c3env : String → Comp := fun k => if k = "ga" then gaussLikeC else constC

/-- C3, counterexample to the unamended claim: with `A = Gauss()` (shared
node id `"ga"`), `C = A + B` and `D = C + A`, the merged graph `D` is
well-formed — both operation nodes have two inbound edges, so the
construction-time flux trace succeeds, unlike the `A + A` case of C5 — but
`"ga"` is an in-degree-0 additive root of `D` only once, so over the single
photon-mode bin `[1, 2]` the evaluator returns `5/2` for `D` while
`flux C + flux A = 5/2 + 1 = 7/2`: flux of the composed model is not the
sum of the operands' fluxes. -/
theorem c3_shared_root_counterexample :
    GraphWF gD
    ∧ rootsG gD = ["ga", "pb"]
    ∧ rootsG gC ++ rootsG gA = ["ga", "pb", "ga"]
    ∧ fluxG idlog false gD c3env 1 b1 b2 0 = 5 / 2
    ∧ fluxG idlog false gC c3env 1 b1 b2 0
        + fluxG idlog false gA c3env 1 b1 b2 0 = 7 / 2
    ∧ fluxG idlog false gD c3env 1 b1 b2 0
        ≠ fluxG idlog false gC c3env 1 b1 b2 0
          + fluxG idlog false gA c3env 1 b1 b2 0 := by
  have he1 : c3env "ga" = gaussLikeC := rfl
  have he2 : c3env "pb" = constC := rfl
  have hrD : rootsG gD = ["ga", "pb"] := by decide
  have hrC : rootsG gC = ["ga", "pb"] := by decide
  have hrA : rootsG gA = ["ga"] := by decide
  have hcD1 : collectG gD "ga" = [] := by decide
  have hcD2 : collectG gD "pb" = [] := by decide
  have hcC1 : collectG gC "ga" = [] := by decide
  have hcC2 : collectG gC "pb" = [] := by decide
  have hcA1 : collectG gA "ga" = [] := by decide
  have htD : ∀ e : ℚ, topContG gD c3env e = 1 := fun e => by
    show (0 : ℚ) + 1 + 0 = 1; norm_num
  have htC : ∀ e : ℚ, topContG gC c3env e = 1 := fun e => by
    show (0 : ℚ) + 1 = 1; norm_num
  have htA : ∀ e : ℚ, topContG gA c3env e = 0 := fun e => rfl
  have hfD : fluxG idlog false gD c3env 1 b1 b2 0 = 5 / 2 := by
    norm_num [fluxG, continuumFluxG, fineFluxG, hrD, hcD1, hcD2, htD,
      he1, he2, gaussLikeC, constC, knots, trapezoid2, b1, b2, idlog]
  have hfC : fluxG idlog false gC c3env 1 b1 b2 0 = 5 / 2 := by
    norm_num [fluxG, continuumFluxG, fineFluxG, hrC, hcC1, hcC2, htC,
      he1, he2, gaussLikeC, constC, knots, trapezoid2, b1, b2, idlog]
  have hfA : fluxG idlog false gA c3env 1 b1 b2 0 = 1 := by
    norm_num [fluxG, continuumFluxG, fineFluxG, hrA, hcA1, htA,
      he1, gaussLikeC, knots, trapezoid2, b1, b2, idlog]
  refine ⟨by decide, hrD, by rw [hrC, hrA]; rfl, hfD, by rw [hfC, hfA]; norm_num,
    by rw [hfD, hfC, hfA]; norm_num⟩
